/-
Verification of the yamldiff core (src/yamldiff/yamldiff.py) against its
natural-language specification.

The embedding models the parsed-tree world the differ operates on:
ruamel.yaml round-trip parsing yields, for each YAML document, either
Python `None` (for a null document) or a node tree in which every
mapping / sequence / scalar node carries line-column source positions
(`lc`), with keyed lookups `lc.key`, `lc.value`, `lc.item`.  A YAML null
value anywhere in a tree is Python `None` and carries no position of its
own.  Machinery that can raise (DiffError, and the Python runtime errors
the differ can trigger: TypeError for `diffs += <Diff>`, AttributeError
for `None.lc`, KeyError for out-of-range `lc.item`, AssertionError for
the differ's own asserts) is modelled with `Except Err`.
-/
import Mathlib

namespace YamlDiff

/-- Zero-based line and column attached to a parsed node by the parser
(the `lc` objects of ruamel.yaml). -/
structure Pos where
  line : Nat
  col  : Nat
deriving DecidableEq, Repr

/-- One-based line and column of a reported difference
(class DiffContext, yamldiff.py lines 29-48). -/
structure DiffContext where
  line : Nat
  col  : Nat
deriving DecidableEq, Repr

/-- DiffContext.from_lc: converts a parser position (0-based) into a
human-readable 1-based DiffContext (yamldiff.py lines 40-48). -/
def from_lc (p : Pos) : DiffContext :=
  ⟨p.line + 1, p.col + 1⟩

/-- One difference record (class Diff, yamldiff.py lines 51-69). -/
structure Diff where
  left : String
  right : String
  left_context : Option DiffContext
  right_context : Option DiffContext
deriving DecidableEq, Repr

/-- NodeType enum (yamldiff.py lines 72-76). -/
inductive NodeType where
  | null
  | map
  | list
  | scalar
deriving DecidableEq, Repr

/-- The string `.value` of each NodeType enum member. -/
def NodeType.val : NodeType → String
  | .null => "null"
  | .map => "map"
  | .list => "sequence"
  | .scalar => "scalar"

/-- A parsed YAML node as ruamel.yaml's round-trip loader hands it to the
differ.  `ynull` is Python `None` (it has no `lc`).  A mapping is an ordered
list of entries `(key, key position, value position, value)`: the two
positions model `node.lc.key k` and `node.lc.value k`, and `pos` models
`node.lc` itself.  A sequence stores `node.lc.item i` with each item.
Scalars carry their `lc` and their value (stringified; the differ only ever
compares scalars for equality and stringifies them). -/
inductive YNode : Type where
  | ynull : YNode
  | ymap (pos : Pos) (entries : List (String × Pos × Pos × YNode)) : YNode
  | ylist (pos : Pos) (items : List (Pos × YNode)) : YNode
  | yscalar (pos : Pos) (val : String) : YNode

/-- Mapping entry: key, key position, value position, value. -/
abbrev MEntry := String × Pos × Pos × YNode

/-- Sequence item: item position, value. -/
abbrev LEntry := Pos × YNode

/-- Exceptions the differ can raise.  DiffError is the tool's own error
class; the rest are the Python runtime errors reachable from the differ. -/
inductive Err where
  | diffError (msg : String)
  | typeError (msg : String)
  | attributeError (msg : String)
  | keyError (msg : String)
  | assertionError (msg : String)
deriving DecidableEq, Repr

/-- YamlDiffer._node_type (yamldiff.py lines 166-175): Python `None` is
NULL, a Mapping is MAP, a non-string Sequence is LIST (a scalar in the
embedding is never a Lean list, matching the string exclusion), anything
else is SCALAR. -/
def node_type : YNode → NodeType
  | .ynull => .null
  | .ymap _ _ => .map
  | .ylist _ _ => .list
  | .yscalar _ _ => .scalar

/-- The `lc` attribute of a parsed node: `none` for Python `None`
(accessing it raises AttributeError), otherwise the node's position. -/
def lcOf : YNode → Option Pos
  | .ynull => none
  | .ymap p _ => some p
  | .ylist p _ => some p
  | .yscalar p _ => some p

/-- Dictionary lookup in a parsed mapping (first entry with the key; parsed
YAML mappings have unique keys, ruamel rejects duplicates). -/
def mapFind (es : List MEntry) (k : String) : Option MEntry :=
  es.find? (fun e => e.1 == k)

/-- Python `k in mapping`. -/
def mapMem (es : List MEntry) (k : String) : Bool :=
  (mapFind es k).isSome

mutual

/-- Python `str` of a parsed node, as the differ applies it: scalars print
their value, `None` prints "None", containers print via their Python repr
(rendered here recursively; no claim depends on the container renderings).
-/
def pyStr : YNode → String
  | .ynull => "None"
  | .yscalar _ v => v
  | .ymap _ es => "ordereddict([" ++ pyStrEntries es ++ "])"
  | .ylist _ its => "[" ++ pyStrItems its ++ "]"

/-- Renders mapping entries for pyStr. -/
def pyStrEntries : List MEntry → String
  | [] => ""
  | [e] => "(" ++ e.1 ++ ", " ++ pyStr e.2.2.2 ++ ")"
  | e :: rest => "(" ++ e.1 ++ ", " ++ pyStr e.2.2.2 ++ "), " ++ pyStrEntries rest

/-- Renders sequence items for pyStr. -/
def pyStrItems : List LEntry → String
  | [] => ""
  | [i] => pyStr i.2
  | i :: rest => pyStr i.2 ++ ", " ++ pyStrItems rest

end

/-- Auxiliary size bound: a dictionary lookup returns an entry embedded in
the entry list, so its size is below the list's size (used for the
termination of the recursive differ, which recurses into looked-up
values). -/
theorem mapFind_sizeOf {es : List MEntry} {k : String} {e : MEntry}
    (h : mapFind es k = some e) : sizeOf e < sizeOf es := by
  induction es with
  | nil => simp [mapFind] at h
  | cons x xs ih =>
      rw [mapFind, List.find?_cons] at h
      by_cases hx : (x.1 == k) = true
      · rw [hx] at h
        simp only [Option.some.injEq] at h
        subst h
        simp only [List.cons.sizeOf_spec]
        omega
      · rw [Bool.not_eq_true] at hx
        rw [hx] at h
        have := ih h
        simp only [List.cons.sizeOf_spec]
        omega

/-- The `for key, value in right.items()` loop of _diff_yaml_maps
(yamldiff.py lines 204-208): one record per right-side key absent from the
left mapping.  `right.lc.key(key)` resolves to the iterated entry's key
position. -/
def mapsRightPass (lp : Pos) (le : List MEntry) (rp : Pos) (re : List MEntry) :
    List MEntry → List Diff
  | [] => []
  | (key, kpos, _, _) :: todo =>
      (if mapMem le key then [] else
        [⟨"<missing key>", key, some (from_lc lp), some (from_lc kpos)⟩])
        ++ mapsRightPass lp le rp re todo

/-- Auxiliary size bound: a mapping entry's value is smaller than the
entry. -/
theorem mentry_val_sizeOf (e : MEntry) : sizeOf e.2.2.2 < sizeOf e := by
  obtain ⟨a, b, c, d⟩ := e
  simp only [Prod.mk.sizeOf_spec]
  omega

set_option linter.unusedVariables false in
mutual

/-- YamlDiffer._diff_yaml_maps (yamldiff.py lines 177-209).  The leading
assert is modelled as an AssertionError on non-mapping arguments.  The
left-driven pass (lines 180-203) is mapsLeftPass; the pass over right-only
keys (lines 204-208) is mapsRightPass. -/
def diff_yaml_maps : YNode → YNode → Except Err (List Diff)
  | .ymap lp le, .ymap rp re =>
      match mapsLeftPass lp le rp re le with
      | .error e => .error e
      | .ok ds => .ok (ds ++ mapsRightPass lp le rp re re)
  | _, _ => .error (.assertionError ("_diff_yaml_maps: arguments are not both mappings"))
termination_by l r => 2 * (sizeOf l + sizeOf r)
decreasing_by
all_goals simp
all_goals omega

/-- The body of the `for key, value in left.items()` loop of
_diff_yaml_maps (yamldiff.py lines 180-203), walking the remaining left
entries.  `left.lc.key(key)`, `left.lc.value(key)` and the `left[key]`
lookup of line 186 resolve to the iterated entry's own positions and
value (parsed mappings have unique keys, so dictionary lookup of the
iterated key returns the iterated entry). -/
def mapsLeftPass (lp : Pos) (le : List MEntry) (rp : Pos) (re : List MEntry) :
    List MEntry → Except Err (List Diff)
  | [] => .ok []
  | (key, kpos, vpos, value) :: todo =>
      match hfind : mapFind re key with
      | none =>
          -- `if key not in right` (lines 181-185)
          match mapsLeftPass lp le rp re todo with
          | .error e => .error e
          | .ok rest =>
              .ok (⟨key, "<missing key>", some (from_lc kpos), some (from_lc rp)⟩ :: rest)
      | some rentry =>
          match mapValueDiff key vpos value rentry.2.2.1 rentry.2.2.2 with
          | .error e => .error e
          | .ok here =>
              match mapsLeftPass lp le rp re todo with
              | .error e => .error e
              | .ok rest => .ok (here ++ rest)
termination_by todo => 2 * (sizeOf todo + sizeOf re) + 2
decreasing_by
all_goals simp
all_goals first
  | omega
  | (have h1 := mapFind_sizeOf hfind
     have h2 := mentry_val_sizeOf rentry
     omega)

/-- The kind dispatch for one key present on both sides of a mapping
(yamldiff.py lines 186-203): NULL/NULL passes, LIST and MAP recurse,
SCALAR compares values, differing kinds emit one record annotated with the
key. -/
def mapValueDiff (key : String) (vpos : Pos) (value : YNode)
    (rvpos : Pos) (rvalue : YNode) : Except Err (List Diff) :=
  if node_type value = node_type rvalue then
    if node_type value = .null then .ok []
    else if node_type value = .list then diff_yaml_lists value rvalue
    else if node_type value = .map then diff_yaml_maps value rvalue
    else if node_type value = .scalar then
      -- both are scalars here; pyStr of a scalar is its value, so value
      -- comparison and stringification both go through pyStr
      if pyStr value ≠ pyStr rvalue then
        .ok [⟨pyStr value, pyStr rvalue, some (from_lc vpos), some (from_lc rvpos)⟩]
      else
        .ok []
    else .ok []
  else
    .ok [⟨"<node of type " ++ (node_type value).val ++ "> " ++ key,
          "<node of type " ++ (node_type rvalue).val ++ "> " ++ key,
          some (from_lc vpos), some (from_lc rvpos)⟩]
termination_by 2 * (sizeOf value + sizeOf rvalue) + 1
decreasing_by
all_goals omega

/-- YamlDiffer._diff_yaml_lists (yamldiff.py lines 211-243), with the same
assert modelling as _diff_yaml_maps. -/
def diff_yaml_lists : YNode → YNode → Except Err (List Diff)
  | .ylist lp li, .ylist rp ri => listsWalk lp rp 0 li ri
  | _, _ => .error (.assertionError ("_diff_yaml_lists: arguments are not both sequences"))
termination_by l r => 2 * (sizeOf l + sizeOf r)
decreasing_by
all_goals simp
all_goals omega

/-- The `for idx, item_l, item_r in zip_longest(range(max_len), left, right)`
loop of _diff_yaml_lists (yamldiff.py lines 215-242), walking both item
lists in lock-step.  In Python, `item_l is None` is true both when the
index is beyond the left sequence's length (zip_longest fill) and when the
left sequence's item at that index is an explicit YAML null, so a null
item takes the `<missing item>` branch; when that branch then evaluates
`right.lc.item(idx)` past the right sequence's end, the position lookup
raises (modelled as a KeyError). -/
def listsWalk (lp rp : Pos) (idx : Nat) :
    List LEntry → List LEntry → Except Err (List Diff)
  | [], [] => .ok []
  | [], (rpos, ritem) :: rrest =>
      -- item_l is None because idx is past the left sequence (lines 216-219)
      match listsWalk lp rp (idx + 1) [] rrest with
      | .error e => .error e
      | .ok rest =>
          .ok (⟨"<missing item>", pyStr ritem, some (from_lc lp), some (from_lc rpos)⟩ :: rest)
  | (_, .ynull) :: _, [] =>
      -- item_l is None (null item) and idx is past the right sequence, so
      -- line 219's right.lc.item(idx) lookup fails
      .error (.keyError ("lc.item " ++ toString idx))
  | (lpos, litem) :: lrest, [] =>
      -- item_r is None because idx is past the right sequence (lines 220-223)
      match listsWalk lp rp (idx + 1) lrest [] with
      | .error e => .error e
      | .ok rest =>
          .ok (⟨pyStr litem, "<missing item>", some (from_lc lpos), some (from_lc rp)⟩ :: rest)
  | (_, .ynull) :: lrest, (rpos, ritem) :: rrest =>
      -- item_l is None because the left item is an explicit null (lines 216-219)
      match listsWalk lp rp (idx + 1) lrest rrest with
      | .error e => .error e
      | .ok rest =>
          .ok (⟨"<missing item>", pyStr ritem, some (from_lc lp), some (from_lc rpos)⟩ :: rest)
  | (lpos, litem) :: lrest, (_, .ynull) :: rrest =>
      -- item_r is None because the right item is an explicit null (lines 220-223)
      match listsWalk lp rp (idx + 1) lrest rrest with
      | .error e => .error e
      | .ok rest =>
          .ok (⟨pyStr litem, "<missing item>", some (from_lc lpos), some (from_lc rp)⟩ :: rest)
  | (lpos, litem) :: lrest, (rpos, ritem) :: rrest =>
      -- both items present and non-null: kind dispatch (lines 224-242)
      match
        (if node_type litem = node_type ritem then
          if node_type litem = .null then .ok []
          else if node_type litem = .list then diff_yaml_lists litem ritem
          else if node_type litem = .map then diff_yaml_maps litem ritem
          else if node_type litem = .scalar then
            if pyStr litem ≠ pyStr ritem then
              .ok [⟨pyStr litem, pyStr ritem, some (from_lc lpos), some (from_lc rpos)⟩]
            else
              .ok []
          else .ok []
        else
          .ok [⟨"<node of type " ++ (node_type litem).val ++ ">",
                "<node of type " ++ (node_type ritem).val ++ ">",
                some (from_lc lpos), some (from_lc rpos)⟩] : Except Err (List Diff))
      with
      | .error e => .error e
      | .ok here =>
          match listsWalk lp rp (idx + 1) lrest rrest with
          | .error e => .error e
          | .ok rest => .ok (here ++ rest)
termination_by a b => 2 * (sizeOf a + sizeOf b) + 2
decreasing_by
all_goals simp
all_goals omega

end

/-- The value returned by one call to diff_yaml_docs.  The Python function
returns a list of Diff objects on the matching-classification paths
(lines 155 and 157) but a bare Diff object on the type-mismatch path
(lines 161-164); the distinction matters to its caller, which concatenates
the result onto a list with `+=`. -/
inductive DocsRet where
  | list (diffs : List Diff)
  | single (d : Diff)
deriving DecidableEq, Repr

/-- YamlDiffer.diff_yaml_docs (yamldiff.py lines 141-164): classify both
documents; on matching classifications dispatch MAP and LIST to the
recursive comparators and raise DiffError for anything else (lines
153-159); on differing classifications return a single bare Diff record
describing the two kinds, with a position for each non-NULL side (lines
160-164). -/
def diff_yaml_docs (left right : YNode) : Except Err DocsRet :=
  let type_l := node_type left
  let type_r := node_type right
  if type_l = type_r then
    if type_l = .map then
      match diff_yaml_maps left right with
      | .error e => .error e
      | .ok ds => .ok (.list ds)
    else if type_l = .list then
      match diff_yaml_lists left right with
      | .error e => .error e
      | .ok ds => .ok (.list ds)
    else
      .error (.diffError ("Unknown YAML root node type"))
  else
    .ok (.single ⟨"<top-level node of type " ++ type_l.val ++ ">",
                  "<top-level node of type " ++ type_r.val ++ ">",
                  if type_l ≠ .null then (lcOf left).map from_lc else none,
                  if type_r ≠ .null then (lcOf right).map from_lc else none⟩)

/-- The outcome of `list(y.load_all(stream))` for one input: either the
ordered list of parsed documents (a document that is YAML null is Python
`None`, i.e. `YNode.ynull`), or a MarkedYAMLError carrying the parser's
0-based problem mark plus its context and problem texts. -/
inductive ParseResult where
  | parsed (docs : List YNode)
  | marked (line : Nat) (col : Nat) (ctx : String) (problem : String)

/-- The nested try_load of diff_yaml_streams (yamldiff.py lines 111-123):
a MarkedYAMLError is re-raised as a DiffError whose message carries the
1-based line/column (problem_mark is 0-based, the code adds 1); with
skip_header_doc set, fewer than 2 documents raise a DiffError and
otherwise the first document is dropped. -/
def try_load (pr : ParseResult) (skip_header_doc : Bool) (stream_name : String) :
    Except Err (List YNode) :=
  match pr with
  | .marked line col ctx problem =>
      .error (.diffError ("Error parsing YAML stream \"" ++ stream_name ++ "\":\n"
        ++ toString (line + 1) ++ ":" ++ toString (col + 1) ++ " " ++ ctx ++ ": " ++ problem))
  | .parsed docs =>
      if skip_header_doc then
        if docs.length < 2 then
          .error (.diffError ("Cannot skip header: no header YAML document found"))
        else
          .ok docs.tail
      else
        .ok docs

/-- The document-alignment loop of diff_yaml_streams (yamldiff.py lines
128-139), walking the two document lists in lock-step.  `doc_l is None`
is true both when the index is past the left stream's documents
(zip_longest fill) and when the left document parsed to YAML null; in
that branch the code evaluates `doc_r.lc`, which raises AttributeError
when the right document is itself None.  On a type-mismatch, the bare
Diff returned by diff_yaml_docs makes `diffs += ...` raise TypeError. -/
def streamsWalk (idx : Nat) : List YNode → List YNode → Except Err (List Diff)
  | [], [] => .ok []
  | [], rdoc :: rrest =>
      -- doc_l is None (left stream exhausted), lines 131-133
      match lcOf rdoc with
      | none => .error (.attributeError ("NoneType object has no attribute lc"))
      | some rpos =>
          match streamsWalk (idx + 1) [] rrest with
          | .error e => .error e
          | .ok rest =>
              .ok (⟨"<no document>", "<YAML document #" ++ toString (idx + 1) ++ ">",
                    none, some (from_lc rpos)⟩ :: rest)
  | .ynull :: _, [] =>
      -- doc_l is None (null document) and doc_r is None (right exhausted):
      -- line 133 evaluates doc_r.lc on None
      .error (.attributeError ("NoneType object has no attribute lc"))
  | ldoc :: lrest, [] =>
      -- doc_r is None (right stream exhausted), lines 134-136
      match lcOf ldoc with
      | none => .error (.attributeError ("NoneType object has no attribute lc"))
      | some lpos =>
          match streamsWalk (idx + 1) lrest [] with
          | .error e => .error e
          | .ok rest =>
              .ok (⟨"<YAML document #" ++ toString (idx + 1) ++ ">", "<no document>",
                    some (from_lc lpos), none⟩ :: rest)
  | .ynull :: lrest, rdoc :: rrest =>
      -- doc_l is None (null document), lines 131-133
      match lcOf rdoc with
      | none => .error (.attributeError ("NoneType object has no attribute lc"))
      | some rpos =>
          match streamsWalk (idx + 1) lrest rrest with
          | .error e => .error e
          | .ok rest =>
              .ok (⟨"<no document>", "<YAML document #" ++ toString (idx + 1) ++ ">",
                    none, some (from_lc rpos)⟩ :: rest)
  | ldoc :: lrest, .ynull :: rrest =>
      -- doc_r is None (null document), lines 134-136
      match lcOf ldoc with
      | none => .error (.attributeError ("NoneType object has no attribute lc"))
      | some lpos =>
          match streamsWalk (idx + 1) lrest rrest with
          | .error e => .error e
          | .ok rest =>
              .ok (⟨"<YAML document #" ++ toString (idx + 1) ++ ">", "<no document>",
                    some (from_lc lpos), none⟩ :: rest)
  | ldoc :: lrest, rdoc :: rrest =>
      -- both documents present and non-null, lines 137-138
      match diff_yaml_docs ldoc rdoc with
      | .error e => .error e
      | .ok (.single _) =>
          .error (.typeError ("'Diff' object is not iterable"))
      | .ok (.list ds) =>
          match streamsWalk (idx + 1) lrest rrest with
          | .error e => .error e
          | .ok rest => .ok (ds ++ rest)

/-- YamlDiffer.diff_yaml_streams (yamldiff.py lines 97-139), taking each
side's parse outcome as input: load left, then right (failures propagate
in that order), then align the documents positionally. -/
def diff_yaml_streams (left right : ParseResult) (skip_header_doc : Bool) :
    Except Err (List Diff) :=
  match try_load left skip_header_doc ("left") with
  | .error e => .error e
  | .ok contents_l =>
      match try_load right skip_header_doc ("right") with
      | .error e => .error e
      | .ok contents_r => streamsWalk 0 contents_l contents_r

/-- Holds when a left-mapping entry either has no counterpart key on the
right, or recursing into the two values for its key produces no records
and no error (the hypothesis of the mapping key-coverage property). -/
def sharedKeyOk (re : List MEntry) (e : MEntry) : Bool :=
  match mapFind re e.1 with
  | none => true
  | some f =>
      match mapValueDiff e.1 e.2.2.1 e.2.2.2 f.2.2.1 f.2.2.2 with
      | .ok [] => true
      | _ => false

/-- Membership through mapMem is membership in the key list. -/
theorem mapMem_iff_mem_keys (ys : List MEntry) (k : String) :
    mapMem ys k = true ↔ k ∈ ys.map Prod.fst := by
  simp [mapMem, mapFind, List.find?_isSome, List.mem_map, beq_iff_eq]

/-- Filtering entries on a key predicate has the length of filtering the
key list. -/
theorem length_filter_fst (xs : List MEntry) (p : String → Bool) :
    (xs.filter (fun e => p e.1)).length = ((xs.map Prod.fst).filter p).length := by
  induction xs with
  | nil => rfl
  | cons e xs ih => by_cases h : p e.1 <;> simp [List.filter_cons, h, ih]

/-- For a mapping with distinct keys, the number of entries whose key is
absent from another mapping is the cardinality of the set difference of
the two key sets. -/
theorem length_filter_not_mapMem (xs ys : List MEntry) (h : (xs.map Prod.fst).Nodup) :
    (xs.filter (fun e => ! mapMem ys e.1)).length =
      ((xs.map Prod.fst).toFinset \ (ys.map Prod.fst).toFinset).card := by
  classical
  have h0 : (xs.filter (fun e => ! mapMem ys e.1)).length =
      ((xs.map Prod.fst).filter (fun k => ! mapMem ys k)).length :=
    length_filter_fst xs (fun k => ! mapMem ys k)
  rw [h0]
  have hpred : ∀ k : String, (! mapMem ys k) = decide (k ∉ (ys.map Prod.fst).toFinset) := by
    intro k
    by_cases hk : k ∈ ys.map Prod.fst
    · simp [List.mem_toFinset, hk, (mapMem_iff_mem_keys ys k).2 hk]
    · have hm : mapMem ys k = false := by
        rw [← Bool.not_eq_true]
        intro hc
        exact hk ((mapMem_iff_mem_keys ys k).1 hc)
      simp [List.mem_toFinset, hk, hm]
  calc ((xs.map Prod.fst).filter fun k => ! mapMem ys k).length
      = ((xs.map Prod.fst).filter fun k =>
          decide (k ∉ (ys.map Prod.fst).toFinset)).length := by
        simp only [hpred]
    _ = ((xs.map Prod.fst).filter fun k =>
          decide (k ∉ (ys.map Prod.fst).toFinset)).toFinset.card :=
        (List.toFinset_card_of_nodup (h.filter _)).symm
    _ = ((xs.map Prod.fst).toFinset.filter
          fun k => k ∉ (ys.map Prod.fst).toFinset).card := by
        rw [List.toFinset_filter]
        have hcong : ((xs.map Prod.fst).toFinset.filter
              fun k => (decide (k ∉ (ys.map Prod.fst).toFinset)) = true) =
            ((xs.map Prod.fst).toFinset.filter
              fun k => k ∉ (ys.map Prod.fst).toFinset) :=
          Finset.filter_congr (by intro x hx; simp)
        rw [hcong]
    _ = ((xs.map Prod.fst).toFinset \ (ys.map Prod.fst).toFinset).card := by
        rw [Finset.sdiff_eq_filter]

/-- The right-only pass produces exactly one "<missing key>" record per
walked entry whose key is absent from the left mapping, in walk order. -/
theorem mapsRightPass_eq (lp : Pos) (le : List MEntry) (rp : Pos) (re : List MEntry)
    (todo : List MEntry) :
    mapsRightPass lp le rp re todo =
      (todo.filter (fun e => ! mapMem le e.1)).map
        (fun e => ⟨"<missing key>", e.1, some (from_lc lp), some (from_lc e.2.1)⟩) := by
  induction todo with
  | nil => rfl
  | cons e todo ih =>
      obtain ⟨key, kpos, vp, v⟩ := e
      by_cases h : mapMem le key
      · simp [mapsRightPass, h, ih, List.filter_cons]
      · simp [mapsRightPass, h, ih, List.filter_cons]

/-- When every walked left entry with a shared key recurses to no records
and no error, the left pass returns exactly one "missing key" record per
walked entry whose key is absent from the right mapping, in walk order. -/
theorem mapsLeftPass_all_shared_ok (lp : Pos) (le : List MEntry) (rp : Pos)
    (re : List MEntry) (todo : List MEntry)
    (h : ∀ e ∈ todo, sharedKeyOk re e = true) :
    mapsLeftPass lp le rp re todo =
      .ok ((todo.filter (fun e => ! mapMem re e.1)).map
        (fun e => ⟨e.1, "<missing key>", some (from_lc e.2.1), some (from_lc rp)⟩)) := by
  induction todo with
  | nil => simp [mapsLeftPass]
  | cons e todo ih =>
      obtain ⟨key, kpos, vpos, v⟩ := e
      have he2 : (match mapFind re key with
          | none => true
          | some f =>
              match mapValueDiff key vpos v f.2.2.1 f.2.2.2 with
              | .ok [] => true
              | _ => false) = true := h _ (List.mem_cons_self _ _)
      have htl := fun e hm => h e (List.mem_cons_of_mem _ hm)
      simp only [mapsLeftPass]
      split
      · rename_i heq
        have hmem : mapMem re key = false := by simp [mapMem, heq]
        rw [ih htl]
        simp [List.filter_cons, hmem]
      · rename_i rentry heq
        rw [heq] at he2
        simp only [] at he2
        have hok : mapValueDiff key vpos v rentry.2.2.1 rentry.2.2.2 = .ok [] := by
          cases hres : mapValueDiff key vpos v rentry.2.2.1 rentry.2.2.2 with
          | error er => rw [hres] at he2; simp at he2
          | ok ds =>
              cases ds with
              | nil => rfl
              | cons d ds => rw [hres] at he2; simp at he2
        have hmem : mapMem re key = true := by simp [mapMem, heq]
        rw [hok, ih htl]
        simp [List.filter_cons, hmem]

mutual

/-- Well-formedness of a parsed node, true of every tree ruamel.yaml's
round-trip loader can produce: every mapping has pairwise-distinct keys
(the loader rejects duplicate keys), recursively. -/
def wfNode : YNode → Bool
  | .ynull => true
  | .yscalar _ _ => true
  | .ymap _ es => decide ((es.map Prod.fst).Nodup) && wfEntries es
  | .ylist _ its => wfItems its

/-- All entry values of a mapping are well-formed. -/
def wfEntries : List MEntry → Bool
  | [] => true
  | e :: es => wfNode e.2.2.2 && wfEntries es

/-- All items of a sequence are well-formed. -/
def wfItems : List LEntry → Bool
  | [] => true
  | i :: is2 => wfNode i.2 && wfItems is2

end

/-- All documents of a parse outcome are well-formed. -/
def docsWF : List YNode → Bool
  | [] => true
  | d :: ds => wfNode d && docsWF ds

/-- Well-formedness of a parse outcome (parse errors carry no trees). -/
def parseWF : ParseResult → Bool
  | .marked _ _ _ _ => true
  | .parsed docs => docsWF docs

theorem wfEntries_mem {es : List MEntry} (h : wfEntries es = true) {e : MEntry}
    (he : e ∈ es) : wfNode e.2.2.2 = true := by
  induction es with
  | nil => cases he
  | cons x xs ih =>
      rw [wfEntries, Bool.and_eq_true] at h
      rcases List.mem_cons.1 he with rfl | hm
      · exact h.1
      · exact ih h.2 hm

theorem wfItems_mem {its : List LEntry} (h : wfItems its = true) {i : LEntry}
    (hi : i ∈ its) : wfNode i.2 = true := by
  induction its with
  | nil => cases hi
  | cons x xs ih =>
      rw [wfItems, Bool.and_eq_true] at h
      rcases List.mem_cons.1 hi with rfl | hm
      · exact h.1
      · exact ih h.2 hm

theorem wfNode_map_nodup {p : Pos} {es : List MEntry}
    (h : wfNode (.ymap p es) = true) : (es.map Prod.fst).Nodup := by
  rw [wfNode, Bool.and_eq_true, decide_eq_true_eq] at h
  exact h.1

theorem wfNode_map_entries {p : Pos} {es : List MEntry}
    (h : wfNode (.ymap p es) = true) : wfEntries es = true := by
  rw [wfNode, Bool.and_eq_true] at h
  exact h.2

theorem wfNode_list_items {p : Pos} {its : List LEntry}
    (h : wfNode (.ylist p its) = true) : wfItems its = true := by
  rw [wfNode] at h
  exact h

theorem docsWF_mem {ds : List YNode} (h : docsWF ds = true) {d : YNode}
    (hd : d ∈ ds) : wfNode d = true := by
  induction ds with
  | nil => cases hd
  | cons x xs ih =>
      rw [docsWF, Bool.and_eq_true] at h
      rcases List.mem_cons.1 hd with rfl | hm
      · exact h.1
      · exact ih h.2 hm

theorem docsWF_tail {ds : List YNode} (h : docsWF ds = true) : docsWF ds.tail = true := by
  cases ds with
  | nil => exact h
  | cons x xs => rw [docsWF, Bool.and_eq_true] at h; exact h.2

/-- The length a fallible diff result contributes when it succeeded. -/
def exceptLen : Except Err (List Diff) → Nat
  | .ok ds => ds.length
  | .error _ => 0

/-- The number of records one left-pass entry contributes: 1 for a missing
key, otherwise the length of the shared-key recursion's result. -/
def entryContrib (re : List MEntry) (e : MEntry) : Nat :=
  match mapFind re e.1 with
  | none => 1
  | some f => exceptLen (mapValueDiff e.1 e.2.2.1 e.2.2.2 f.2.2.1 f.2.2.2)

/-- The number of records the shared key `k` contributes, looked up from
both sides. -/
def gFn (le re : List MEntry) (k : String) : Nat :=
  match mapFind le k, mapFind re k with
  | some e, some f => exceptLen (mapValueDiff k e.2.2.1 e.2.2.2 f.2.2.1 f.2.2.2)
  | _, _ => 0

/-- A successful left pass has one record per walked missing key plus the
records of each shared-key recursion. -/
theorem mapsLeftPass_ok_length {lp rp : Pos} {le re : List MEntry}
    {todo : List MEntry} {d : List Diff}
    (h : mapsLeftPass lp le rp re todo = .ok d) :
    d.length = (todo.map (entryContrib re)).sum := by
  induction todo generalizing d with
  | nil =>
      simp only [mapsLeftPass] at h
      cases h
      rfl
  | cons e todo ih =>
      obtain ⟨key, kpos, vpos, v⟩ := e
      simp only [mapsLeftPass] at h
      split at h
      · rename_i heq
        split at h
        · cases h
        · rename_i rest hrest
          cases h
          have := ih hrest
          simp [List.map_cons, entryContrib, heq, this]
          omega
      · rename_i rentry heq
        split at h
        · cases h
        · rename_i here hhere
          split at h
          · cases h
          · rename_i rest hrest
            cases h
            have := ih hrest
            simp [List.map_cons, entryContrib, heq, this, hhere, exceptLen]

/-- In a successful left pass every walked shared key's recursion
succeeded. -/
theorem mapsLeftPass_ok_shared {lp rp : Pos} {le re : List MEntry}
    {todo : List MEntry} {d : List Diff}
    (h : mapsLeftPass lp le rp re todo = .ok d) :
    ∀ e ∈ todo, ∀ f, mapFind re e.1 = some f →
      ∃ ds, mapValueDiff e.1 e.2.2.1 e.2.2.2 f.2.2.1 f.2.2.2 = .ok ds := by
  induction todo generalizing d with
  | nil => intro e he; cases he
  | cons e0 todo ih =>
      intro e he f hf
      obtain ⟨key, kpos, vpos, v⟩ := e0
      simp only [mapsLeftPass] at h
      rcases List.mem_cons.1 he with rfl | hm
      · split at h
        · rename_i heq
          rw [heq] at hf
          cases hf
        · rename_i rentry heq
          rw [heq] at hf
          cases hf
          split at h
          · cases h
          · rename_i here hhere
            exact ⟨here, hhere⟩
      · split at h
        · split at h
          · cases h
          · rename_i rest hrest
            exact ih hrest e hm f hf
        · split at h
          · cases h
          · split at h
            · cases h
            · rename_i rest hrest
              exact ih hrest e hm f hf

/-- In a mapping with distinct keys, looking up a member entry's key finds
that entry. -/
theorem nodup_mapFind_mem {le : List MEntry} (hn : (le.map Prod.fst).Nodup)
    {e : MEntry} (he : e ∈ le) : mapFind le e.1 = some e := by
  induction le with
  | nil => cases he
  | cons x xs ih =>
      rw [List.map_cons, List.nodup_cons] at hn
      rcases List.mem_cons.1 he with rfl | hm
      · rw [mapFind, List.find?_cons_of_pos]
        simp
      · have hne : (x.1 == e.1) = false := by
          rw [beq_eq_false_iff_ne]
          intro hcontra
          exact hn.1 (hcontra ▸ List.mem_map_of_mem Prod.fst hm)
        rw [mapFind, List.find?_cons_of_neg _ (by simp [hne])]
        exact ih hn.2 hm

/-- A key absent via mapMem has no entry. -/
theorem mapMem_false_find {es : List MEntry} {k : String}
    (h : mapMem es k = false) : mapFind es k = none := by
  cases hf : mapFind es k with
  | none => rfl
  | some f => rw [mapMem, hf] at h; simp at h

/-- The left-pass contribution sum splits into the missing-key count plus
the shared-entry contributions. -/
theorem sum_entryContrib_split (re : List MEntry) (todo : List MEntry) :
    (todo.map (entryContrib re)).sum =
      (todo.filter (fun e => ! mapMem re e.1)).length
      + ((todo.filter (fun e => mapMem re e.1)).map (entryContrib re)).sum := by
  induction todo with
  | nil => rfl
  | cons e todo ih =>
      by_cases h : mapMem re e.1 = true
      · simp [List.filter_cons, h, ih]
        omega
      · rw [Bool.not_eq_true] at h
        have h1 : entryContrib re e = 1 := by
          rw [entryContrib, mapMem_false_find h]
        simp [List.filter_cons, h, ih, h1]
        omega

/-- On a shared entry of a distinct-key mapping, the walked contribution
is the keyed contribution. -/
theorem entryContrib_eq_gFn {le re : List MEntry} (hn : (le.map Prod.fst).Nodup)
    {e : MEntry} (he : e ∈ le) (hs : mapMem re e.1 = true) :
    entryContrib re e = gFn le re e.1 := by
  have h1 := nodup_mapFind_mem hn he
  rw [mapMem, Option.isSome_iff_exists] at hs
  obtain ⟨f, hf⟩ := hs
  rw [entryContrib, gFn, h1, hf]

/-- The keys shared between two mappings, in the first mapping's order. -/
def sharedKeys (le re : List MEntry) : List String :=
  (le.filter (fun e => mapMem re e.1)).map Prod.fst

theorem sharedKeys_nodup {le re : List MEntry} (hn : (le.map Prod.fst).Nodup) :
    (sharedKeys le re).Nodup := by
  have hsub : List.Sublist (sharedKeys le re) (le.map Prod.fst) :=
    (List.filter_sublist le).map Prod.fst
  exact hsub.nodup hn

theorem mem_sharedKeys {le re : List MEntry} {k : String} :
    k ∈ sharedKeys le re ↔ (k ∈ le.map Prod.fst ∧ k ∈ re.map Prod.fst) := by
  constructor
  · intro h
    rw [sharedKeys, List.mem_map] at h
    obtain ⟨e, he, rfl⟩ := h
    rw [List.mem_filter] at he
    exact ⟨List.mem_map_of_mem Prod.fst he.1, (mapMem_iff_mem_keys re e.1).1 he.2⟩
  · intro ⟨h1, h2⟩
    rw [List.mem_map] at h1
    obtain ⟨e, he, rfl⟩ := h1
    rw [sharedKeys, List.mem_map]
    refine ⟨e, ?_, rfl⟩
    rw [List.mem_filter]
    exact ⟨he, (mapMem_iff_mem_keys re e.1).2 h2⟩

/-- The two orientations of the shared-key list are permutations of each
other when both mappings have distinct keys. -/
theorem sharedKeys_perm {le re : List MEntry} (hnl : (le.map Prod.fst).Nodup)
    (hnr : (re.map Prod.fst).Nodup) :
    List.Perm (sharedKeys le re) (sharedKeys re le) := by
  apply List.Subperm.antisymm
  · exact (sharedKeys_nodup hnl).subperm
      (fun k hk => mem_sharedKeys.2 (mem_sharedKeys.1 hk).symm)
  · exact (sharedKeys_nodup hnr).subperm
      (fun k hk => mem_sharedKeys.2 (mem_sharedKeys.1 hk).symm)

/-- Symmetric detection at a pair of mappings: whenever both orientations
of _diff_yaml_maps succeed on well-formed nodes, they produce the same
number of records. -/
def MapsSymAt (l r : YNode) : Prop :=
  ∀ dl dr : List Diff, wfNode l = true → wfNode r = true →
    diff_yaml_maps l r = .ok dl → diff_yaml_maps r l = .ok dr → dl.length = dr.length

/-- Symmetric detection at a pair of sequences. -/
def ListsSymAt (l r : YNode) : Prop :=
  ∀ dl dr : List Diff, wfNode l = true → wfNode r = true →
    diff_yaml_lists l r = .ok dl → diff_yaml_lists r l = .ok dr → dl.length = dr.length

/-- The shared-key value dispatch detects symmetrically: if both
orientations succeed, they produce the same number of records (assuming
the two recursive comparators do, which the main induction supplies). -/
theorem mapValueDiff_sym {k k2 : String} {vp wp vp2 wp2 : Pos} {v w : YNode}
    {ds1 ds2 : List Diff}
    (hsym : MapsSymAt v w ∧ ListsSymAt v w)
    (hwv : wfNode v = true) (hww : wfNode w = true)
    (h1 : mapValueDiff k vp v wp w = .ok ds1)
    (h2 : mapValueDiff k2 wp2 w vp2 v = .ok ds2) :
    ds1.length = ds2.length := by
  rw [mapValueDiff] at h1 h2
  by_cases ht : node_type v = node_type w
  · rw [if_pos ht] at h1
    rw [if_pos ht.symm] at h2
    by_cases h0 : node_type v = .null
    · rw [if_pos h0] at h1
      rw [if_pos (ht.symm.trans h0)] at h2
      cases h1
      cases h2
      rfl
    · rw [if_neg h0] at h1
      rw [if_neg (fun hh => h0 (ht.trans hh))] at h2
      by_cases hl : node_type v = .list
      · rw [if_pos hl] at h1
        rw [if_pos (ht.symm.trans hl)] at h2
        exact hsym.2 ds1 ds2 hwv hww h1 h2
      · rw [if_neg hl] at h1
        rw [if_neg (fun hh => hl (ht.trans hh))] at h2
        by_cases hm : node_type v = .map
        · rw [if_pos hm] at h1
          rw [if_pos (ht.symm.trans hm)] at h2
          exact hsym.1 ds1 ds2 hwv hww h1 h2
        · rw [if_neg hm] at h1
          rw [if_neg (fun hh => hm (ht.trans hh))] at h2
          by_cases hs : node_type v = .scalar
          · rw [if_pos hs] at h1
            rw [if_pos (ht.symm.trans hs)] at h2
            by_cases hne : pyStr v = pyStr w
            · rw [if_neg (by simpa using hne)] at h1
              rw [if_neg (by simpa using hne.symm)] at h2
              cases h1
              cases h2
              rfl
            · rw [if_pos (by simpa using hne)] at h1
              rw [if_pos (by simpa using (Ne.symm hne))] at h2
              cases h1
              cases h2
              rfl
          · cases htv : node_type v <;> simp_all
  · rw [if_neg ht] at h1
    rw [if_neg (fun hh => ht hh.symm)] at h2
    cases h1
    cases h2
    rfl

/-- Lock-step symmetry of the sequence walk when the left run's list is
exhausted: each remaining right item produces exactly one record in both
orientations (a remaining null item makes the mirrored run fail, which
the success hypothesis excludes). -/
theorem listsWalkSym_nil_left {lp rp lp2 rp2 : Pos} :
    ∀ (bs : List LEntry) (idx idx2 : Nat) (dl dr : List Diff),
      listsWalk lp rp idx [] bs = .ok dl →
      listsWalk rp2 lp2 idx2 bs [] = .ok dr →
      dl.length = dr.length := by
  intro bs
  induction bs with
  | nil =>
      intro idx idx2 dl dr h1 h2
      simp only [listsWalk] at h1 h2
      cases h1
      cases h2
      rfl
  | cons b bs ih =>
      intro idx idx2 dl dr h1 h2
      obtain ⟨rpos, ritem⟩ := b
      simp only [listsWalk] at h1
      split at h1
      · cases h1
      · rename_i rest1 hrest1
        cases h1
        cases ritem with
        | ynull => simp only [listsWalk] at h2; cases h2
        | ymap p es =>
            simp only [listsWalk] at h2
            split at h2
            · cases h2
            · rename_i rest2 hrest2
              cases h2
              simp [ih _ _ _ _ hrest1 hrest2]
        | ylist p is2 =>
            simp only [listsWalk] at h2
            split at h2
            · cases h2
            · rename_i rest2 hrest2
              cases h2
              simp [ih _ _ _ _ hrest1 hrest2]
        | yscalar p s =>
            simp only [listsWalk] at h2
            split at h2
            · cases h2
            · rename_i rest2 hrest2
              cases h2
              simp [ih _ _ _ _ hrest1 hrest2]

/-- Mirror of listsWalkSym_nil_left: the right run's list is exhausted. -/
theorem listsWalkSym_nil_right {lp rp lp2 rp2 : Pos} :
    ∀ (as2 : List LEntry) (idx idx2 : Nat) (dl dr : List Diff),
      listsWalk lp rp idx as2 [] = .ok dl →
      listsWalk rp2 lp2 idx2 [] as2 = .ok dr →
      dl.length = dr.length := by
  intro as2 idx idx2 dl dr h1 h2
  exact (listsWalkSym_nil_left as2 idx2 idx dr dl h2 h1).symm

/-- Lock-step symmetry of the sequence walk: when both orientations of
the walk succeed on well-formed items, they produce the same number of
records.  The IH argument supplies symmetric detection for strictly
smaller node pairs (the items the walk recurses into). -/
theorem listsWalkSym {n : Nat}
    (IH : ∀ v w : YNode, sizeOf v + sizeOf w < n → MapsSymAt v w ∧ ListsSymAt v w)
    {lp rp lp2 rp2 : Pos} :
    ∀ (as2 bs : List LEntry) (idx idx2 : Nat) (dl dr : List Diff),
      sizeOf as2 + sizeOf bs ≤ n →
      wfItems as2 = true → wfItems bs = true →
      listsWalk lp rp idx as2 bs = .ok dl →
      listsWalk rp2 lp2 idx2 bs as2 = .ok dr →
      dl.length = dr.length := by
  intro as2
  induction as2 with
  | nil =>
      intro bs idx idx2 dl dr hsz hwa hwb h1 h2
      exact listsWalkSym_nil_left bs idx idx2 dl dr h1 h2
  | cons a as2 iha =>
      intro bs idx idx2 dl dr hsz hwa hwb h1 h2
      cases bs with
      | nil => exact listsWalkSym_nil_right (a :: as2) idx idx2 dl dr h1 h2
      | cons b bs =>
          obtain ⟨lpos, litem⟩ := a
          obtain ⟨rpos, ritem⟩ := b
          have hsz2 : sizeOf as2 + sizeOf bs ≤ n := by
            simp only [List.cons.sizeOf_spec, Prod.mk.sizeOf_spec] at hsz
            omega
          have hit : sizeOf litem + sizeOf ritem < n := by
            simp only [List.cons.sizeOf_spec, Prod.mk.sizeOf_spec] at hsz
            omega
          rw [wfItems, Bool.and_eq_true] at hwa hwb
          obtain ⟨hwlit, hwas⟩ := hwa
          obtain ⟨hwrit, hwbs⟩ := hwb
          cases litem with
          | ynull =>
              simp only [listsWalk] at h1
              split at h1
              · cases h1
              · rename_i rest1 hrest1
                cases h1
                cases ritem with
                | ynull =>
                    simp only [listsWalk] at h2
                    split at h2
                    · cases h2
                    · rename_i rest2 hrest2
                      cases h2
                      simp [iha bs _ _ _ _ hsz2 hwas hwbs hrest1 hrest2]
                | ymap p es =>
                    simp only [listsWalk] at h2
                    split at h2
                    · cases h2
                    · rename_i rest2 hrest2
                      cases h2
                      simp [iha bs _ _ _ _ hsz2 hwas hwbs hrest1 hrest2]
                | ylist p is2 =>
                    simp only [listsWalk] at h2
                    split at h2
                    · cases h2
                    · rename_i rest2 hrest2
                      cases h2
                      simp [iha bs _ _ _ _ hsz2 hwas hwbs hrest1 hrest2]
                | yscalar p s =>
                    simp only [listsWalk] at h2
                    split at h2
                    · cases h2
                    · rename_i rest2 hrest2
                      cases h2
                      simp [iha bs _ _ _ _ hsz2 hwas hwbs hrest1 hrest2]
          | ymap pl esl =>
              cases ritem with
              | ynull =>
                  simp only [listsWalk] at h1 h2
                  split at h1
                  · cases h1
                  · rename_i rest1 hrest1
                    cases h1
                    split at h2
                    · cases h2
                    · rename_i rest2 hrest2
                      cases h2
                      simp [iha bs _ _ _ _ hsz2 hwas hwbs hrest1 hrest2]
              | ymap pr esr =>
                  simp only [listsWalk, node_type] at h1 h2
                  simp only [reduceCtorEq, reduceIte] at h1 h2
                  split at h1
                  · cases h1
                  · rename_i here1 hdisp1
                    split at h1
                    · cases h1
                    · rename_i rest1 hrest1
                      cases h1
                      split at h2
                      · cases h2
                      · rename_i here2 hdisp2
                        split at h2
                        · cases h2
                        · rename_i rest2 hrest2
                          cases h2
                          have hh := (IH _ _ hit).1 here1 here2 hwlit hwrit hdisp1 hdisp2
                          have hr := iha bs _ _ _ _ hsz2 hwas hwbs hrest1 hrest2
                          simp [List.length_append, hh, hr]
              | ylist pr isr =>
                  simp only [listsWalk, node_type] at h1 h2
                  simp only [reduceCtorEq, reduceIte] at h1 h2
                  split at h1
                  · cases h1
                  · rename_i rest1 hrest1
                    cases h1
                    split at h2
                    · cases h2
                    · rename_i rest2 hrest2
                      cases h2
                      have hr := iha bs _ _ _ _ hsz2 hwas hwbs hrest1 hrest2
                      simp [List.length_append, hr]
              | yscalar pr sr =>
                  simp only [listsWalk, node_type] at h1 h2
                  simp only [reduceCtorEq, reduceIte] at h1 h2
                  split at h1
                  · cases h1
                  · rename_i rest1 hrest1
                    cases h1
                    split at h2
                    · cases h2
                    · rename_i rest2 hrest2
                      cases h2
                      have hr := iha bs _ _ _ _ hsz2 hwas hwbs hrest1 hrest2
                      simp [List.length_append, hr]
          | ylist pl isl =>
              cases ritem with
              | ynull =>
                  simp only [listsWalk] at h1 h2
                  split at h1
                  · cases h1
                  · rename_i rest1 hrest1
                    cases h1
                    split at h2
                    · cases h2
                    · rename_i rest2 hrest2
                      cases h2
                      simp [iha bs _ _ _ _ hsz2 hwas hwbs hrest1 hrest2]
              | ymap pr esr =>
                  simp only [listsWalk, node_type] at h1 h2
                  simp only [reduceCtorEq, reduceIte] at h1 h2
                  split at h1
                  · cases h1
                  · rename_i rest1 hrest1
                    cases h1
                    split at h2
                    · cases h2
                    · rename_i rest2 hrest2
                      cases h2
                      have hr := iha bs _ _ _ _ hsz2 hwas hwbs hrest1 hrest2
                      simp [List.length_append, hr]
              | ylist pr isr =>
                  simp only [listsWalk, node_type] at h1 h2
                  simp only [reduceCtorEq, reduceIte] at h1 h2
                  split at h1
                  · cases h1
                  · rename_i here1 hdisp1
                    split at h1
                    · cases h1
                    · rename_i rest1 hrest1
                      cases h1
                      split at h2
                      · cases h2
                      · rename_i here2 hdisp2
                        split at h2
                        · cases h2
                        · rename_i rest2 hrest2
                          cases h2
                          have hh := (IH _ _ hit).2 here1 here2 hwlit hwrit hdisp1 hdisp2
                          have hr := iha bs _ _ _ _ hsz2 hwas hwbs hrest1 hrest2
                          simp [List.length_append, hh, hr]
              | yscalar pr sr =>
                  simp only [listsWalk, node_type] at h1 h2
                  simp only [reduceCtorEq, reduceIte] at h1 h2
                  split at h1
                  · cases h1
                  · rename_i rest1 hrest1
                    cases h1
                    split at h2
                    · cases h2
                    · rename_i rest2 hrest2
                      cases h2
                      have hr := iha bs _ _ _ _ hsz2 hwas hwbs hrest1 hrest2
                      simp [List.length_append, hr]
          | yscalar pl sl =>
              cases ritem with
              | ynull =>
                  simp only [listsWalk] at h1 h2
                  split at h1
                  · cases h1
                  · rename_i rest1 hrest1
                    cases h1
                    split at h2
                    · cases h2
                    · rename_i rest2 hrest2
                      cases h2
                      simp [iha bs _ _ _ _ hsz2 hwas hwbs hrest1 hrest2]
              | ymap pr esr =>
                  simp only [listsWalk, node_type] at h1 h2
                  simp only [reduceCtorEq, reduceIte] at h1 h2
                  split at h1
                  · cases h1
                  · rename_i rest1 hrest1
                    cases h1
                    split at h2
                    · cases h2
                    · rename_i rest2 hrest2
                      cases h2
                      have hr := iha bs _ _ _ _ hsz2 hwas hwbs hrest1 hrest2
                      simp [List.length_append, hr]
              | ylist pr isr =>
                  simp only [listsWalk, node_type] at h1 h2
                  simp only [reduceCtorEq, reduceIte] at h1 h2
                  split at h1
                  · cases h1
                  · rename_i rest1 hrest1
                    cases h1
                    split at h2
                    · cases h2
                    · rename_i rest2 hrest2
                      cases h2
                      have hr := iha bs _ _ _ _ hsz2 hwas hwbs hrest1 hrest2
                      simp [List.length_append, hr]
              | yscalar pr sr =>
                  simp only [listsWalk, node_type, pyStr, reduceCtorEq, reduceIte] at h1 h2
                  by_cases hss : sl = sr
                  · rw [if_neg (by simp [hss])] at h1
                    rw [if_neg (by simp [hss])] at h2
                    split at h1
                    · rename_i e1 heq1
                      cases heq1
                    · rename_i ds1 heq1
                      cases heq1
                      split at h1
                      · cases h1
                      · rename_i rest1 hrest1
                        cases h1
                        split at h2
                        · rename_i e2 heq2
                          cases heq2
                        · rename_i ds2 heq2
                          cases heq2
                          split at h2
                          · cases h2
                          · rename_i rest2 hrest2
                            cases h2
                            simp [iha bs _ _ _ _ hsz2 hwas hwbs hrest1 hrest2]
                  · rw [if_pos (by simp [hss])] at h1
                    rw [if_pos (by simp [Ne.symm hss])] at h2
                    split at h1
                    · rename_i e1 heq1
                      cases heq1
                    · rename_i ds1 heq1
                      cases heq1
                      split at h1
                      · cases h1
                      · rename_i rest1 hrest1
                        cases h1
                        split at h2
                        · rename_i e2 heq2
                          cases heq2
                        · rename_i ds2 heq2
                          cases heq2
                          split at h2
                          · cases h2
                          · rename_i rest2 hrest2
                            cases h2
                            simp [iha bs _ _ _ _ hsz2 hwas hwbs hrest1 hrest2]

/-- Symmetric detection for every pair of well-formed nodes: whenever both
orientations of the recursive comparator succeed, they produce the same
number of records.  Proved by strong induction on the combined node
size. -/
theorem diffSymAux : ∀ (n : Nat) (l r : YNode), sizeOf l + sizeOf r ≤ n →
    MapsSymAt l r ∧ ListsSymAt l r := by
  intro n
  induction n using Nat.strong_induction_on with
  | _ n ihn =>
    intro l r hsize
    have IH : ∀ v w : YNode, sizeOf v + sizeOf w < n → MapsSymAt v w ∧ ListsSymAt v w := by
      intro v w hvw
      exact ihn (sizeOf v + sizeOf w) (by omega) v w (le_refl _)
    constructor
    · intro dl dr hwl hwr h1 h2
      cases l with
      | ymap lp le =>
          cases r with
          | ymap rp re =>
              simp only [diff_yaml_maps] at h1 h2
              split at h1
              · cases h1
              · rename_i ds1 heq1
                cases h1
                split at h2
                · cases h2
                · rename_i ds2 heq2
                  cases h2
                  have hnl := wfNode_map_nodup hwl
                  have hnr := wfNode_map_nodup hwr
                  have hwle := wfNode_map_entries hwl
                  have hwre := wfNode_map_entries hwr
                  have hlen1 := mapsLeftPass_ok_length heq1
                  have hlen2 := mapsLeftPass_ok_length heq2
                  have hsplit1 := sum_entryContrib_split re le
                  have hsplit2 := sum_entryContrib_split le re
                  have hmapA : (le.filter (fun e => mapMem re e.1)).map (entryContrib re) =
                      (sharedKeys le re).map (gFn le re) := by
                    rw [sharedKeys, List.map_map]
                    apply List.map_congr_left
                    intro e he
                    rw [List.mem_filter] at he
                    simpa [Function.comp] using entryContrib_eq_gFn hnl he.1 he.2
                  have hmapB : (re.filter (fun e => mapMem le e.1)).map (entryContrib le) =
                      (sharedKeys re le).map (gFn re le) := by
                    rw [sharedKeys, List.map_map]
                    apply List.map_congr_left
                    intro e he
                    rw [List.mem_filter] at he
                    simpa [Function.comp] using entryContrib_eq_gFn hnr he.1 he.2
                  have hpoint : ∀ k ∈ sharedKeys re le, gFn re le k = gFn le re k := by
                    intro k hk
                    obtain ⟨hkr, hkl⟩ := mem_sharedKeys.1 hk
                    rw [List.mem_map] at hkr hkl
                    obtain ⟨f, hf, hf1⟩ := hkr
                    obtain ⟨e, he, he1⟩ := hkl
                    have hfe : mapFind le k = some e := he1 ▸ nodup_mapFind_mem hnl he
                    have hff : mapFind re k = some f := hf1 ▸ nodup_mapFind_mem hnr hf
                    simp only [gFn, hfe, hff]
                    obtain ⟨ds, hds⟩ := mapsLeftPass_ok_shared heq1 e he f (by rw [he1, hff])
                    obtain ⟨ds3, hds3⟩ := mapsLeftPass_ok_shared heq2 f hf e (by rw [hf1, hfe])
                    rw [he1] at hds
                    rw [hf1] at hds3
                    rw [hds, hds3]
                    have hwv : wfNode e.2.2.2 = true := wfEntries_mem hwle he
                    have hww : wfNode f.2.2.2 = true := wfEntries_mem hwre hf
                    have hszvw : sizeOf e.2.2.2 + sizeOf f.2.2.2 < n := by
                      have m1 := List.sizeOf_lt_of_mem he
                      have m2 := List.sizeOf_lt_of_mem hf
                      have m3 := mentry_val_sizeOf e
                      have m4 := mentry_val_sizeOf f
                      simp only [YNode.ymap.sizeOf_spec] at hsize
                      omega
                    have hlen := mapValueDiff_sym (IH e.2.2.2 f.2.2.2 hszvw) hwv hww hds hds3
                    simp [exceptLen, hlen]
                  have hsum1 : ((sharedKeys le re).map (gFn le re)).sum =
                      ((sharedKeys re le).map (gFn le re)).sum :=
                    ((sharedKeys_perm hnl hnr).map _).sum_eq
                  have hsum2 : ((sharedKeys re le).map (gFn le re)).sum =
                      ((sharedKeys re le).map (gFn re le)).sum := by
                    rw [List.map_congr_left (fun k hk => (hpoint k hk).symm)]
                  have hr1 : (mapsRightPass lp le rp re re).length =
                      (re.filter (fun e => ! mapMem le e.1)).length := by
                    rw [mapsRightPass_eq]
                    simp
                  have hr2 : (mapsRightPass rp re lp le le).length =
                      (le.filter (fun e => ! mapMem re e.1)).length := by
                    rw [mapsRightPass_eq]
                    simp
                  rw [List.length_append, List.length_append, hlen1, hlen2, hr1, hr2,
                    hsplit1, hsplit2, hmapA, hmapB, hsum1, hsum2]
                  have hcomm : ∀ a b c : Nat, a + c + b = b + c + a := by omega
                  exact hcomm _ _ _
          | ynull => simp only [diff_yaml_maps] at h1; cases h1
          | ylist p i => simp only [diff_yaml_maps] at h1; cases h1
          | yscalar p s => simp only [diff_yaml_maps] at h1; cases h1
      | ynull => simp only [diff_yaml_maps] at h1; cases h1
      | ylist p i => simp only [diff_yaml_maps] at h1; cases h1
      | yscalar p s => simp only [diff_yaml_maps] at h1; cases h1
    · intro dl dr hwl hwr h1 h2
      cases l with
      | ylist lp li =>
          cases r with
          | ylist rp ri =>
              simp only [diff_yaml_lists] at h1 h2
              have hsz : sizeOf li + sizeOf ri ≤ n := by
                simp only [YNode.ylist.sizeOf_spec] at hsize
                omega
              exact listsWalkSym IH li ri 0 0 dl dr hsz
                (wfNode_list_items hwl) (wfNode_list_items hwr) h1 h2
          | ynull => simp only [diff_yaml_lists] at h1; cases h1
          | ymap p e => simp only [diff_yaml_lists] at h1; cases h1
          | yscalar p s => simp only [diff_yaml_lists] at h1; cases h1
      | ynull => simp only [diff_yaml_lists] at h1; cases h1
      | ymap p e => simp only [diff_yaml_lists] at h1; cases h1
      | yscalar p s => simp only [diff_yaml_lists] at h1; cases h1

/-- Document-level symmetric detection: whenever both orientations of
diff_yaml_docs return record collections on well-formed documents, the
collections have the same length. -/
theorem diff_yaml_docs_sym {l r : YNode} {ds1 ds2 : List Diff}
    (hwl : wfNode l = true) (hwr : wfNode r = true)
    (h1 : diff_yaml_docs l r = .ok (.list ds1))
    (h2 : diff_yaml_docs r l = .ok (.list ds2)) :
    ds1.length = ds2.length := by
  rw [diff_yaml_docs] at h1 h2
  by_cases ht : node_type l = node_type r
  · rw [if_pos ht] at h1
    rw [if_pos ht.symm] at h2
    by_cases hm : node_type l = .map
    · rw [if_pos hm] at h1
      rw [if_pos (ht.symm.trans hm)] at h2
      split at h1
      · cases h1
      · rename_i dsa heqa
        simp only [Except.ok.injEq, DocsRet.list.injEq] at h1
        subst h1
        split at h2
        · cases h2
        · rename_i dsb heqb
          simp only [Except.ok.injEq, DocsRet.list.injEq] at h2
          subst h2
          exact (diffSymAux (sizeOf l + sizeOf r) l r (le_refl _)).1 dsa dsb hwl hwr heqa heqb
    · rw [if_neg hm] at h1
      rw [if_neg (fun hh => hm (ht.trans hh))] at h2
      by_cases hl : node_type l = .list
      · rw [if_pos hl] at h1
        rw [if_pos (ht.symm.trans hl)] at h2
        split at h1
        · cases h1
        · rename_i dsa heqa
          simp only [Except.ok.injEq, DocsRet.list.injEq] at h1
          subst h1
          split at h2
          · cases h2
          · rename_i dsb heqb
            simp only [Except.ok.injEq, DocsRet.list.injEq] at h2
            subst h2
            exact (diffSymAux (sizeOf l + sizeOf r) l r (le_refl _)).2 dsa dsb hwl hwr heqa heqb
      · rw [if_neg hl] at h1
        cases h1
  · rw [if_neg ht] at h1
    simp at h1

/-- Lock-step symmetry of the stream walk with the left run's document
list exhausted. -/
theorem streamsWalkSym_nil_left :
    ∀ (bs : List YNode) (idx idx2 : Nat) (dl dr : List Diff),
      streamsWalk idx [] bs = .ok dl →
      streamsWalk idx2 bs [] = .ok dr →
      dl.length = dr.length := by
  intro bs
  induction bs with
  | nil =>
      intro idx idx2 dl dr h1 h2
      simp only [streamsWalk] at h1 h2
      cases h1
      cases h2
      rfl
  | cons rdoc rrest ih =>
      intro idx idx2 dl dr h1 h2
      cases rdoc with
      | ynull => simp only [streamsWalk, lcOf] at h1; cases h1
      | ymap p es =>
          simp only [streamsWalk, lcOf] at h1 h2
          split at h1
          · cases h1
          · rename_i rest1 hrest1
            cases h1
            split at h2
            · cases h2
            · rename_i rest2 hrest2
              cases h2
              simp [ih _ _ _ _ hrest1 hrest2]
      | ylist p is2 =>
          simp only [streamsWalk, lcOf] at h1 h2
          split at h1
          · cases h1
          · rename_i rest1 hrest1
            cases h1
            split at h2
            · cases h2
            · rename_i rest2 hrest2
              cases h2
              simp [ih _ _ _ _ hrest1 hrest2]
      | yscalar p s =>
          simp only [streamsWalk, lcOf] at h1 h2
          split at h1
          · cases h1
          · rename_i rest1 hrest1
            cases h1
            split at h2
            · cases h2
            · rename_i rest2 hrest2
              cases h2
              simp [ih _ _ _ _ hrest1 hrest2]

/-- Lock-step symmetry of the stream walk: when both orientations succeed
on well-formed documents, they produce the same number of records. -/
theorem streamsWalkSym :
    ∀ (as2 bs : List YNode) (idx idx2 : Nat) (dl dr : List Diff),
      docsWF as2 = true → docsWF bs = true →
      streamsWalk idx as2 bs = .ok dl →
      streamsWalk idx2 bs as2 = .ok dr →
      dl.length = dr.length := by
  intro as2
  induction as2 with
  | nil =>
      intro bs idx idx2 dl dr hwa hwb h1 h2
      exact streamsWalkSym_nil_left bs idx idx2 dl dr h1 h2
  | cons ldoc lrest ih =>
      intro bs idx idx2 dl dr hwa hwb h1 h2
      cases bs with
      | nil =>
          exact (streamsWalkSym_nil_left (ldoc :: lrest) idx2 idx dr dl h2 h1).symm
      | cons rdoc rrest =>
          rw [docsWF, Bool.and_eq_true] at hwa hwb
          obtain ⟨hwld, hwlrest⟩ := hwa
          obtain ⟨hwrd, hwrrest⟩ := hwb
          cases ldoc with
          | ynull =>
              cases rdoc with
              | ynull => simp only [streamsWalk, lcOf] at h1; cases h1
              | ymap p es =>
                  simp only [streamsWalk, lcOf] at h1 h2
                  split at h1
                  · cases h1
                  · rename_i rest1 hrest1
                    cases h1
                    split at h2
                    · cases h2
                    · rename_i rest2 hrest2
                      cases h2
                      simp [ih rrest _ _ _ _ hwlrest hwrrest hrest1 hrest2]
              | ylist p is2 =>
                  simp only [streamsWalk, lcOf] at h1 h2
                  split at h1
                  · cases h1
                  · rename_i rest1 hrest1
                    cases h1
                    split at h2
                    · cases h2
                    · rename_i rest2 hrest2
                      cases h2
                      simp [ih rrest _ _ _ _ hwlrest hwrrest hrest1 hrest2]
              | yscalar p s =>
                  simp only [streamsWalk, lcOf] at h1 h2
                  split at h1
                  · cases h1
                  · rename_i rest1 hrest1
                    cases h1
                    split at h2
                    · cases h2
                    · rename_i rest2 hrest2
                      cases h2
                      simp [ih rrest _ _ _ _ hwlrest hwrrest hrest1 hrest2]
          | ymap pl esl =>
              cases rdoc with
              | ynull =>
                  simp only [streamsWalk, lcOf] at h1 h2
                  split at h1
                  · cases h1
                  · rename_i rest1 hrest1
                    cases h1
                    split at h2
                    · cases h2
                    · rename_i rest2 hrest2
                      cases h2
                      simp [ih rrest _ _ _ _ hwlrest hwrrest hrest1 hrest2]
              | ymap pr esr =>
                  simp only [streamsWalk] at h1 h2
                  split at h1
                  · cases h1
                  · cases h1
                  · rename_i dsa heqa
                    split at h1
                    · cases h1
                    · rename_i rest1 hrest1
                      cases h1
                      split at h2
                      · cases h2
                      · cases h2
                      · rename_i dsb heqb
                        split at h2
                        · cases h2
                        · rename_i rest2 hrest2
                          cases h2
                          have hd := diff_yaml_docs_sym hwld hwrd heqa heqb
                          have hr := ih rrest _ _ _ _ hwlrest hwrrest hrest1 hrest2
                          simp [List.length_append, hd, hr]
              | ylist pr isr =>
                  simp only [streamsWalk] at h1 h2
                  split at h1
                  · cases h1
                  · cases h1
                  · rename_i dsa heqa
                    split at h1
                    · cases h1
                    · rename_i rest1 hrest1
                      cases h1
                      split at h2
                      · cases h2
                      · cases h2
                      · rename_i dsb heqb
                        split at h2
                        · cases h2
                        · rename_i rest2 hrest2
                          cases h2
                          have hd := diff_yaml_docs_sym hwld hwrd heqa heqb
                          have hr := ih rrest _ _ _ _ hwlrest hwrrest hrest1 hrest2
                          simp [List.length_append, hd, hr]
              | yscalar pr sr =>
                  simp only [streamsWalk] at h1 h2
                  split at h1
                  · cases h1
                  · cases h1
                  · rename_i dsa heqa
                    split at h1
                    · cases h1
                    · rename_i rest1 hrest1
                      cases h1
                      split at h2
                      · cases h2
                      · cases h2
                      · rename_i dsb heqb
                        split at h2
                        · cases h2
                        · rename_i rest2 hrest2
                          cases h2
                          have hd := diff_yaml_docs_sym hwld hwrd heqa heqb
                          have hr := ih rrest _ _ _ _ hwlrest hwrrest hrest1 hrest2
                          simp [List.length_append, hd, hr]
          | ylist pl isl =>
              cases rdoc with
              | ynull =>
                  simp only [streamsWalk, lcOf] at h1 h2
                  split at h1
                  · cases h1
                  · rename_i rest1 hrest1
                    cases h1
                    split at h2
                    · cases h2
                    · rename_i rest2 hrest2
                      cases h2
                      simp [ih rrest _ _ _ _ hwlrest hwrrest hrest1 hrest2]
              | ymap pr esr =>
                  simp only [streamsWalk] at h1 h2
                  split at h1
                  · cases h1
                  · cases h1
                  · rename_i dsa heqa
                    split at h1
                    · cases h1
                    · rename_i rest1 hrest1
                      cases h1
                      split at h2
                      · cases h2
                      · cases h2
                      · rename_i dsb heqb
                        split at h2
                        · cases h2
                        · rename_i rest2 hrest2
                          cases h2
                          have hd := diff_yaml_docs_sym hwld hwrd heqa heqb
                          have hr := ih rrest _ _ _ _ hwlrest hwrrest hrest1 hrest2
                          simp [List.length_append, hd, hr]
              | ylist pr isr =>
                  simp only [streamsWalk] at h1 h2
                  split at h1
                  · cases h1
                  · cases h1
                  · rename_i dsa heqa
                    split at h1
                    · cases h1
                    · rename_i rest1 hrest1
                      cases h1
                      split at h2
                      · cases h2
                      · cases h2
                      · rename_i dsb heqb
                        split at h2
                        · cases h2
                        · rename_i rest2 hrest2
                          cases h2
                          have hd := diff_yaml_docs_sym hwld hwrd heqa heqb
                          have hr := ih rrest _ _ _ _ hwlrest hwrrest hrest1 hrest2
                          simp [List.length_append, hd, hr]
              | yscalar pr sr =>
                  simp only [streamsWalk] at h1 h2
                  split at h1
                  · cases h1
                  · cases h1
                  · rename_i dsa heqa
                    split at h1
                    · cases h1
                    · rename_i rest1 hrest1
                      cases h1
                      split at h2
                      · cases h2
                      · cases h2
                      · rename_i dsb heqb
                        split at h2
                        · cases h2
                        · rename_i rest2 hrest2
                          cases h2
                          have hd := diff_yaml_docs_sym hwld hwrd heqa heqb
                          have hr := ih rrest _ _ _ _ hwlrest hwrrest hrest1 hrest2
                          simp [List.length_append, hd, hr]
          | yscalar pl sl =>
              cases rdoc with
              | ynull =>
                  simp only [streamsWalk, lcOf] at h1 h2
                  split at h1
                  · cases h1
                  · rename_i rest1 hrest1
                    cases h1
                    split at h2
                    · cases h2
                    · rename_i rest2 hrest2
                      cases h2
                      simp [ih rrest _ _ _ _ hwlrest hwrrest hrest1 hrest2]
              | ymap pr esr =>
                  simp only [streamsWalk] at h1 h2
                  split at h1
                  · cases h1
                  · cases h1
                  · rename_i dsa heqa
                    split at h1
                    · cases h1
                    · rename_i rest1 hrest1
                      cases h1
                      split at h2
                      · cases h2
                      · cases h2
                      · rename_i dsb heqb
                        split at h2
                        · cases h2
                        · rename_i rest2 hrest2
                          cases h2
                          have hd := diff_yaml_docs_sym hwld hwrd heqa heqb
                          have hr := ih rrest _ _ _ _ hwlrest hwrrest hrest1 hrest2
                          simp [List.length_append, hd, hr]
              | ylist pr isr =>
                  simp only [streamsWalk] at h1 h2
                  split at h1
                  · cases h1
                  · cases h1
                  · rename_i dsa heqa
                    split at h1
                    · cases h1
                    · rename_i rest1 hrest1
                      cases h1
                      split at h2
                      · cases h2
                      · cases h2
                      · rename_i dsb heqb
                        split at h2
                        · cases h2
                        · rename_i rest2 hrest2
                          cases h2
                          have hd := diff_yaml_docs_sym hwld hwrd heqa heqb
                          have hr := ih rrest _ _ _ _ hwlrest hwrrest hrest1 hrest2
                          simp [List.length_append, hd, hr]
              | yscalar pr sr =>
                  simp only [streamsWalk] at h1 h2
                  split at h1
                  · cases h1
                  · cases h1
                  · rename_i dsa heqa
                    split at h1
                    · cases h1
                    · rename_i rest1 hrest1
                      cases h1
                      split at h2
                      · cases h2
                      · cases h2
                      · rename_i dsb heqb
                        split at h2
                        · cases h2
                        · rename_i rest2 hrest2
                          cases h2
                          have hd := diff_yaml_docs_sym hwld hwrd heqa heqb
                          have hr := ih rrest _ _ _ _ hwlrest hwrrest hrest1 hrest2
                          simp [List.length_append, hd, hr]

/-!  Claim theorems. -/

/-- C1: the claim states that the collection returned by diff_yaml_streams
is empty iff the two sources are semantically identical.  The code
violates this: feeding the SAME parse (a stream whose single document is
the sequence `[null]`) to both sides returns a non-empty collection — the
explicit null item is swallowed by the `item_l is None` test of
_diff_yaml_lists, which produces a spurious "<missing item>" / "None"
record for two identical sources, contradicting the function's own
docstring ("empty array if files are identical"). -/
theorem claim1_identical_null_item_streams_nonempty :
    diff_yaml_streams (.parsed [.ylist ⟨0, 0⟩ [(⟨0, 2⟩, .ynull)]])
        (.parsed [.ylist ⟨0, 0⟩ [(⟨0, 2⟩, .ynull)]]) false =
      .ok [⟨"<missing item>", "None", some ⟨1, 1⟩, some ⟨1, 3⟩⟩] := by
  simp [diff_yaml_streams, try_load, streamsWalk, diff_yaml_docs, node_type, lcOf,
    diff_yaml_lists, listsWalk, pyStr, from_lc]

/-- C2: the claim states `diff(X, X) == []` for any valid document X,
explicitly including documents containing null list items.  The code
violates this for X = the sequence `[null]`: diff_yaml_docs X X emits a
"<missing item>" / "None" record, because _diff_yaml_lists cannot tell an
explicit null item from a past-the-end index (both make `item_l is None`
true), contradicting its docstring ("empty array if files are
identical"). -/
theorem claim2_self_diff_of_null_item_list_nonempty :
    diff_yaml_docs (.ylist ⟨0, 0⟩ [(⟨0, 2⟩, .ynull)]) (.ylist ⟨0, 0⟩ [(⟨0, 2⟩, .ynull)]) =
      .ok (.list [⟨"<missing item>", "None", some ⟨1, 1⟩, some ⟨1, 3⟩⟩]) := by
  simp [diff_yaml_docs, node_type, diff_yaml_lists, listsWalk, pyStr, from_lc]

/-- C3 counterexample: the claim states that two documents that both
classify as scalar are compared for value equality without failing, and
two absent documents produce no records without failing.  On the code,
two equal bare-scalar documents make diff_yaml_docs raise DiffError
("Unknown YAML root node type"): the matching-classification branch only
handles MAP and LIST and raises for everything else, so the operation
fails instead of comparing. -/
theorem claim3_counterexample_equal_scalar_docs_raise :
    diff_yaml_docs (.yscalar ⟨0, 0⟩ "5") (.yscalar ⟨0, 0⟩ "5") =
      .error (.diffError ("Unknown YAML root node type")) := by
  rfl

/-- C3 amended: in document-level comparison, when both documents classify
as scalar, or both classify as absent, diff_yaml_docs raises DiffError
"Unknown YAML root node type"; no records are produced in either case. -/
theorem claim3_amended_scalar_or_null_docs_raise (l r : YNode)
    (heq : node_type l = node_type r)
    (hkind : node_type l = .scalar ∨ node_type l = .null) :
    diff_yaml_docs l r = .error (.diffError ("Unknown YAML root node type")) := by
  unfold diff_yaml_docs
  rcases hkind with h | h <;> simp [heq.symm, h]

/-- C3 amended, witness: two absent documents make diff_yaml_docs raise. -/
theorem claim3_amended_witness :
    diff_yaml_docs .ynull .ynull = .error (.diffError ("Unknown YAML root node type")) :=
  claim3_amended_scalar_or_null_docs_raise .ynull .ynull rfl (Or.inr rfl)

/-- C4: the claim states that a type mismatch yields a collection
containing exactly one record, at the document top level as well as at
nested positions.  At the document top level the code is broken: the
type-mismatch branch of diff_yaml_docs returns a bare Diff object instead
of a list (contradicting its docstring "Returns: array of Diff objects"),
and its only caller, diff_yaml_streams, then raises TypeError at
`diffs += self.diff_yaml_docs(doc_l, doc_r)` because a Diff is not
iterable.  Evaluated at a mapping document vs a sequence document: the
document comparison returns the bare record, and the stream comparison
raises instead of returning a one-record collection. -/
theorem claim4_top_level_mismatch_returns_bare_diff_and_crashes :
    diff_yaml_docs (.ymap ⟨0, 0⟩ [("a", ⟨0, 0⟩, ⟨0, 3⟩, .yscalar ⟨0, 3⟩ "1")])
        (.ylist ⟨0, 0⟩ [(⟨0, 2⟩, .yscalar ⟨0, 2⟩ "1")]) =
      .ok (.single ⟨"<top-level node of type map>", "<top-level node of type sequence>",
        some ⟨1, 1⟩, some ⟨1, 1⟩⟩)
    ∧ diff_yaml_streams (.parsed [.ymap ⟨0, 0⟩ [("a", ⟨0, 0⟩, ⟨0, 3⟩, .yscalar ⟨0, 3⟩ "1")]])
        (.parsed [.ylist ⟨0, 0⟩ [(⟨0, 2⟩, .yscalar ⟨0, 2⟩ "1")]]) false =
      .error (.typeError ("'Diff' object is not iterable")) := by
  constructor
  · rfl
  · simp [diff_yaml_streams, try_load, streamsWalk, diff_yaml_docs, node_type, lcOf,
      NodeType.val, from_lc]

/-- C5 counterexample: the claim states the header-skip failure names
which side is deficient.  The code raises the same side-free DiffError
message "Cannot skip header: no header YAML document found" regardless of
which side is deficient: a left-deficient pair and the mirrored
right-deficient pair produce byte-identical errors, so the error cannot
identify the deficient side. -/
theorem claim5_counterexample_header_error_is_side_free :
    diff_yaml_streams (.parsed [.ymap ⟨0, 0⟩ []]) (.parsed [.ymap ⟨0, 0⟩ [], .ymap ⟨1, 0⟩ []]) true =
      diff_yaml_streams (.parsed [.ymap ⟨0, 0⟩ [], .ymap ⟨1, 0⟩ []]) (.parsed [.ymap ⟨0, 0⟩ []]) true
    ∧ diff_yaml_streams (.parsed [.ymap ⟨0, 0⟩ []]) (.parsed [.ymap ⟨0, 0⟩ [], .ymap ⟨1, 0⟩ []]) true =
      .error (.diffError ("Cannot skip header: no header YAML document found")) := by
  constructor <;> rfl

/-- C5 amended: for every pair of streams with skip_header set where at
least one side has fewer than 2 documents, the operation fails before any
diffing with the header-skip DiffError "Cannot skip header: no header
YAML document found" (which does not identify the deficient side), and no
difference records are produced. -/
theorem claim5_amended_header_skip_fails (ld rd : List YNode)
    (h : ld.length < 2 ∨ rd.length < 2) :
    diff_yaml_streams (.parsed ld) (.parsed rd) true =
      .error (.diffError ("Cannot skip header: no header YAML document found")) := by
  by_cases hl : ld.length < 2
  · simp [diff_yaml_streams, try_load, hl]
  · have hr : rd.length < 2 := by omega
    simp [diff_yaml_streams, try_load, hl, hr]

/-- C5 amended, witness: two empty streams with skip_header set. -/
theorem claim5_amended_witness :
    diff_yaml_streams (.parsed []) (.parsed []) true =
      .error (.diffError ("Cannot skip header: no header YAML document found")) :=
  claim5_amended_header_skip_fails [] [] (Or.inl (by decide))

/-- C6: for mappings L and R whose keys are unique (as in any parsed YAML
mapping) such that every key shared by both sides recurses without
producing any further divergence, _diff_yaml_maps returns exactly the
"missing key" records: the left-only keys in L's iteration order first,
then the right-only keys in R's iteration order, and their number is
`card(keys L \\ keys R) + card(keys R \\ keys L)`. -/
theorem claim6_mapping_missing_key_coverage (lp rp : Pos) (le re : List MEntry)
    (hshared : ∀ e ∈ le, sharedKeyOk re e = true)
    (hnl : (le.map Prod.fst).Nodup) (hnr : (re.map Prod.fst).Nodup) :
    diff_yaml_maps (.ymap lp le) (.ymap rp re) =
      .ok ((le.filter (fun e => ! mapMem re e.1)).map
            (fun e => ⟨e.1, "<missing key>", some (from_lc e.2.1), some (from_lc rp)⟩)
        ++ (re.filter (fun e => ! mapMem le e.1)).map
            (fun e => ⟨"<missing key>", e.1, some (from_lc lp), some (from_lc e.2.1)⟩))
    ∧ ((le.filter (fun e => ! mapMem re e.1)).map
            (fun e => (⟨e.1, "<missing key>", some (from_lc e.2.1), some (from_lc rp)⟩ : Diff))
        ++ (re.filter (fun e => ! mapMem le e.1)).map
            (fun e => (⟨"<missing key>", e.1, some (from_lc lp), some (from_lc e.2.1)⟩ : Diff))).length =
      ((le.map Prod.fst).toFinset \ (re.map Prod.fst).toFinset).card
        + ((re.map Prod.fst).toFinset \ (le.map Prod.fst).toFinset).card := by
  constructor
  · simp only [diff_yaml_maps]
    rw [mapsLeftPass_all_shared_ok lp le rp re le hshared, mapsRightPass_eq]
  · rw [List.length_append, List.length_map, List.length_map,
      length_filter_not_mapMem le re hnl, length_filter_not_mapMem re le hnr]

/-- C6, witness: maps {a: 1} and {b: 2} (no shared keys) produce exactly
the a-missing record then the b-missing record. -/
theorem claim6_witness :
    diff_yaml_maps (.ymap ⟨0, 0⟩ [("a", ⟨0, 1⟩, ⟨0, 3⟩, .yscalar ⟨0, 3⟩ "1")])
        (.ymap ⟨1, 0⟩ [("b", ⟨1, 1⟩, ⟨1, 3⟩, .yscalar ⟨1, 3⟩ "2")]) =
      .ok [⟨"a", "<missing key>", some ⟨1, 2⟩, some ⟨2, 1⟩⟩,
           ⟨"<missing key>", "b", some ⟨1, 1⟩, some ⟨2, 2⟩⟩] := by
  have h := (claim6_mapping_missing_key_coverage ⟨0, 0⟩ ⟨1, 0⟩
    [("a", ⟨0, 1⟩, ⟨0, 3⟩, .yscalar ⟨0, 3⟩ "1")]
    [("b", ⟨1, 1⟩, ⟨1, 3⟩, .yscalar ⟨1, 3⟩ "2")]
    (by decide) (by decide) (by decide)).1
  rw [h]
  simp [mapMem, mapFind, List.find?, from_lc]

/-- C7: the claim states that a sequence index at which both elements are
explicit nulls, and a mapping key whose two values are null, both emit no
record.  The mapping half holds (the NULL/NULL kind dispatch passes), but
the sequence half is broken in the code: `item_l is None` is true for an
in-range null item, so _diff_yaml_lists takes the "<missing item>" branch
and emits a record — its own `if type_l == NodeType.NULL: pass` arm
(line 228-229), written for exactly this case, is unreachable.  Evaluated:
the mapping {a: null} against itself yields no records, while the
sequence [null] against itself yields a "<missing item>" / "None"
record. -/
theorem claim7_null_map_values_pass_but_null_items_emit :
    diff_yaml_maps (.ymap ⟨0, 0⟩ [("a", ⟨0, 0⟩, ⟨0, 3⟩, .ynull)])
        (.ymap ⟨0, 0⟩ [("a", ⟨0, 0⟩, ⟨0, 3⟩, .ynull)]) = .ok []
    ∧ diff_yaml_lists (.ylist ⟨0, 0⟩ [(⟨0, 2⟩, .ynull)]) (.ylist ⟨0, 0⟩ [(⟨0, 2⟩, .ynull)]) =
      .ok [⟨"<missing item>", "None", some ⟨1, 1⟩, some ⟨1, 3⟩⟩] := by
  constructor
  · simp [diff_yaml_maps, mapsLeftPass, mapsRightPass, mapFind, mapMem, mapValueDiff,
      node_type, List.find?]
  · simp [diff_yaml_lists, listsWalk, pyStr, from_lc]

/-- C8: for every pair of inputs where at least one side is malformed
YAML (a MarkedYAMLError with a 0-based problem mark), the operation fails
with a DiffError carrying the 1-based line and column of the error
location, before any difference records are produced; the failure is
total.  The left side is loaded first, so a malformed left side fails
regardless of the right side; a malformed right side fails whenever the
left side loads (with skip_header set that needs at least 2 left
documents). -/
theorem claim8_parse_error_fails_fast :
    (∀ (line col : Nat) (ctx problem : String) (right : ParseResult) (skip : Bool),
      diff_yaml_streams (.marked line col ctx problem) right skip =
        .error (.diffError ("Error parsing YAML stream \"left\":\n"
          ++ toString (line + 1) ++ ":" ++ toString (col + 1) ++ " " ++ ctx ++ ": " ++ problem)))
    ∧ (∀ (docs : List YNode) (line col : Nat) (ctx problem : String) (skip : Bool),
      (skip = true → 2 ≤ docs.length) →
      diff_yaml_streams (.parsed docs) (.marked line col ctx problem) skip =
        .error (.diffError ("Error parsing YAML stream \"right\":\n"
          ++ toString (line + 1) ++ ":" ++ toString (col + 1) ++ " " ++ ctx ++ ": " ++ problem))) := by
  constructor
  · intro line col ctx problem right skip
    rfl
  · intro docs line col ctx problem skip h
    cases skip with
    | false => simp [diff_yaml_streams, try_load]
    | true =>
        have h2 : ¬ docs.length < 2 := by
          have := h rfl
          omega
        simp [diff_yaml_streams, try_load, h2]

/-- C8, witness: a malformed left input with 0-based mark (2, 5) fails
with the 1-based position 3:6; a malformed right input against an empty
left stream fails with the right-side parse error. -/
theorem claim8_witness :
    diff_yaml_streams (.marked 2 5 ("while parsing") ("expected X")) (.parsed []) false =
      .error (.diffError ("Error parsing YAML stream \"left\":\n"
        ++ toString (2 + 1) ++ ":" ++ toString (5 + 1) ++ " " ++ "while parsing" ++ ": " ++ "expected X"))
    ∧ diff_yaml_streams (.parsed []) (.marked 0 0 ("c") ("p")) false =
      .error (.diffError ("Error parsing YAML stream \"right\":\n"
        ++ toString (0 + 1) ++ ":" ++ toString (0 + 1) ++ " " ++ "c" ++ ": " ++ "p")) :=
  ⟨claim8_parse_error_fails_fast.1 2 5 ("while parsing") ("expected X") (.parsed []) false,
   claim8_parse_error_fails_fast.2 [] 0 0 ("c") ("p") false (by simp)⟩

/-- Two lists of equal length are simultaneously empty. -/
theorem length_eq_imp_empty_iff {l1 l2 : List Diff} (h : l1.length = l2.length) :
    l1 = [] ↔ l2 = [] := by
  constructor
  · intro hh
    subst hh
    exact List.length_eq_zero.1 h.symm
  · intro hh
    subst hh
    exact List.length_eq_zero.1 h

/-- C9: for every pair of valid (well-formed) inputs A and B on which both
diff_yaml_streams (A, B) and diff_yaml_streams (B, A) complete without
raising, the first returns a non-empty collection iff the second does:
stated contrapositively, the two collections are simultaneously empty
(they in fact always have equal lengths). -/
theorem claim9_symmetry_of_detection (A B : ParseResult) (skip : Bool)
    (l1 l2 : List Diff)
    (hwA : parseWF A = true) (hwB : parseWF B = true)
    (h1 : diff_yaml_streams A B skip = .ok l1)
    (h2 : diff_yaml_streams B A skip = .ok l2) :
    l1 = [] ↔ l2 = [] := by
  cases A with
  | marked a b c d =>
      simp only [diff_yaml_streams, try_load] at h1
      cases h1
  | parsed docsA =>
      cases B with
      | marked a b c d =>
          simp only [diff_yaml_streams, try_load] at h1
          split at h1
          · cases h1
          · simp at h1
      | parsed docsB =>
          rw [parseWF] at hwA hwB
          cases skip with
          | false =>
              simp only [diff_yaml_streams, try_load, Bool.false_eq_true, if_false] at h1 h2
              exact length_eq_imp_empty_iff
                (streamsWalkSym docsA docsB 0 0 l1 l2 hwA hwB h1 h2)
          | true =>
              simp only [diff_yaml_streams, try_load, if_true] at h1 h2
              by_cases hA : docsA.length < 2
              · simp [hA] at h1
              · by_cases hB : docsB.length < 2
                · simp [hA, hB] at h1
                · simp [hA, hB] at h1 h2
                  exact length_eq_imp_empty_iff
                    (streamsWalkSym docsA.tail docsB.tail 0 0 l1 l2
                      (docsWF_tail hwA) (docsWF_tail hwB) h1 h2)

/-- C9, witness: the streams {a: 1} and {} (one mapping document each)
produce one record in each orientation; both collections are non-empty
together. -/
theorem claim9_witness :
    ([(⟨"a", "<missing key>", some ⟨1, 1⟩, some ⟨1, 1⟩⟩ : Diff)] = ([] : List Diff)) ↔
      ([(⟨"<missing key>", "a", some ⟨1, 1⟩, some ⟨1, 1⟩⟩ : Diff)] = ([] : List Diff)) := by
  have hA : parseWF (.parsed [.ymap ⟨0, 0⟩ [("a", ⟨0, 0⟩, ⟨0, 3⟩, .yscalar ⟨0, 3⟩ "1")]]) = true := by
    simp [parseWF, docsWF, wfNode, wfEntries]
  have hB : parseWF (.parsed [.ymap ⟨0, 0⟩ []]) = true := by
    simp [parseWF, docsWF, wfNode, wfEntries]
  have h1 : diff_yaml_streams (.parsed [.ymap ⟨0, 0⟩ [("a", ⟨0, 0⟩, ⟨0, 3⟩, .yscalar ⟨0, 3⟩ "1")]])
      (.parsed [.ymap ⟨0, 0⟩ []]) false =
      .ok [⟨"a", "<missing key>", some ⟨1, 1⟩, some ⟨1, 1⟩⟩] := by
    simp [diff_yaml_streams, try_load, streamsWalk, diff_yaml_docs, node_type, lcOf,
      diff_yaml_maps, mapsLeftPass, mapsRightPass, mapFind, mapMem, List.find?, from_lc]
  have h2 : diff_yaml_streams (.parsed [.ymap ⟨0, 0⟩ []])
      (.parsed [.ymap ⟨0, 0⟩ [("a", ⟨0, 0⟩, ⟨0, 3⟩, .yscalar ⟨0, 3⟩ "1")]]) false =
      .ok [⟨"<missing key>", "a", some ⟨1, 1⟩, some ⟨1, 1⟩⟩] := by
    simp [diff_yaml_streams, try_load, streamsWalk, diff_yaml_docs, node_type, lcOf,
      diff_yaml_maps, mapsLeftPass, mapsRightPass, mapFind, mapMem, List.find?, from_lc]
  exact claim9_symmetry_of_detection _ _ false _ _ hA hB h1 h2

/-- C10 counterexample: the claim states that whenever one side's document
at an index parses to YAML null and the other side HAS a document at that
index, the stream differ emits a "<no document>" / "<YAML document #N>"
record for that index.  When the other side's document at that index is
itself null the code emits nothing and crashes instead: the `doc_l is
None` branch evaluates `doc_r.lc` on Python None, raising
AttributeError. -/
theorem claim10_counterexample_both_null_docs_crash :
    diff_yaml_streams (.parsed [.ynull]) (.parsed [.ynull]) false =
      .error (.attributeError ("NoneType object has no attribute lc")) := by
  simp [diff_yaml_streams, try_load, streamsWalk, lcOf]

/-- C10 amended: whenever one side's document at an index parses to YAML
null and the other side has a NON-NULL document at that index, the stream
differ emits the "<no document>" / "<YAML document #N>" record for that
index (positioned at the non-null document's start) instead of comparing
the two documents, and walks on: an explicit null document behaves
exactly like an absent one.  Stated on the alignment loop at the
position's step, in both orientations. -/
theorem claim10_amended_null_doc_reported_not_compared :
    (∀ (idx : Nat) (tl tr : List YNode) (rdoc : YNode), node_type rdoc ≠ .null →
      streamsWalk idx (.ynull :: tl) (rdoc :: tr) =
        match streamsWalk (idx + 1) tl tr with
        | .error e => .error e
        | .ok rest =>
            .ok (⟨"<no document>", "<YAML document #" ++ toString (idx + 1) ++ ">",
                  none, (lcOf rdoc).map from_lc⟩ :: rest))
    ∧ (∀ (idx : Nat) (tl tr : List YNode) (ldoc : YNode), node_type ldoc ≠ .null →
      streamsWalk idx (ldoc :: tl) (.ynull :: tr) =
        match streamsWalk (idx + 1) tl tr with
        | .error e => .error e
        | .ok rest =>
            .ok (⟨"<YAML document #" ++ toString (idx + 1) ++ ">", "<no document>",
                  (lcOf ldoc).map from_lc, none⟩ :: rest)) := by
  constructor
  · intro idx tl tr rdoc h
    cases rdoc with
    | ynull => exact absurd rfl h
    | ymap p es => cases hw : streamsWalk (idx + 1) tl tr <;> simp [streamsWalk, lcOf, hw]
    | ylist p is => cases hw : streamsWalk (idx + 1) tl tr <;> simp [streamsWalk, lcOf, hw]
    | yscalar p v => cases hw : streamsWalk (idx + 1) tl tr <;> simp [streamsWalk, lcOf, hw]
  · intro idx tl tr ldoc h
    cases ldoc with
    | ynull => exact absurd rfl h
    | ymap p es => cases hw : streamsWalk (idx + 1) tl tr <;> simp [streamsWalk, lcOf, hw]
    | ylist p is => cases hw : streamsWalk (idx + 1) tl tr <;> simp [streamsWalk, lcOf, hw]
    | yscalar p v => cases hw : streamsWalk (idx + 1) tl tr <;> simp [streamsWalk, lcOf, hw]

/-- C10 amended, witness: a null left document against a scalar right
document at index 0 yields exactly the "<no document>" record. -/
theorem claim10_amended_witness :
    streamsWalk 0 [.ynull] [.yscalar ⟨2, 0⟩ "x"] =
      .ok [⟨"<no document>", "<YAML document #" ++ toString 1 ++ ">", none, some ⟨3, 1⟩⟩] := by
  have h := claim10_amended_null_doc_reported_not_compared.1 0 [] [] (.yscalar ⟨2, 0⟩ "x")
    (by decide)
  rw [h]
  simp [streamsWalk, lcOf, from_lc]

end YamlDiff
